import Mathlib

/-!
Verification of the Markdown segmentation and enrichment-extraction core of
`src/template/app/scripts/docling_processor.py`.

Python strings are modelled as `List Char` (`PyStr`); Python string
operations (`split`, `strip`, `startswith`, `join`, …) are embedded as
explicit functions on character lists, matching CPython semantics for the
ASCII inputs this program manipulates.  The two near-duplicate pipelines in
the source file (the function-based CLI path `process_sections` /
`estimate_reading_time` / `extract_title` / … and the class-based path
`_create_sections` / `_estimate_reading_time`) are both embedded under
their source names.
-/

namespace DoclingProc

/-- Python strings, modelled as lists of characters. -/
abbrev PyStr := List Char

/-- The characters Python's `str.strip()` / `str.split()` treat as
whitespace (ASCII fragment). -/
def isPySpace (c : Char) : Bool :=
  c = ' ' || c = '\t' || c = '\n' || c = '\r' || c = '\x0b' || c = '\x0c'

/-- Drop trailing characters satisfying `p` (right half of `str.strip`). -/
def pyDropTrail (p : Char → Bool) (l : PyStr) : PyStr :=
  (l.reverse.dropWhile p).reverse

/-- Python `str.strip(chars)`: drop leading and trailing characters
satisfying `p`. -/
def pyStripOn (p : Char → Bool) (l : PyStr) : PyStr :=
  pyDropTrail p (l.dropWhile p)

/-- Python `str.strip()` (no argument): strip whitespace from both ends. -/
def pyStrip (l : PyStr) : PyStr := pyStripOn isPySpace l

/-- Python `str.split()` with no separator: whitespace-delimited tokens,
empty tokens discarded.  `acc` accumulates the current word reversed. -/
def pySplitWsAcc : PyStr → List Char → List PyStr
  | [], acc => if acc = [] then [] else [acc.reverse]
  | c :: cs, acc =>
    if isPySpace c then
      if acc = [] then pySplitWsAcc cs [] else acc.reverse :: pySplitWsAcc cs []
    else
      pySplitWsAcc cs (c :: acc)

/-- Python `content.split()`. -/
def pySplitWs (l : PyStr) : List PyStr := pySplitWsAcc l []

/-- Python `str.split('\n')`: split at every newline; yields one more part
than there are newlines (`"".split('\n') == [""]`). -/
def pyLines : PyStr → List PyStr
  | [] => [[]]
  | c :: cs =>
    match pyLines cs with
    | [] => [[]]
    | r :: rs => if c = '\n' then [] :: r :: rs else (c :: r) :: rs

/-- Python `'\n'.join(parts)`. -/
def pyJoinNl : List PyStr → PyStr
  | [] => []
  | [x] => x
  | x :: y :: r => x ++ '\n' :: pyJoinNl (y :: r)

/-- Python `line.startswith(s)`. -/
def pyStartsWith (s l : PyStr) : Bool := List.isPrefixOf s l

/-- Python `round(w / d)` on the exact rational `w / d` (`d > 0`): round to
nearest, ties to even, as CPython's `round` does on floats. -/
def pyRound (w d : Nat) : Nat :=
  let q := w / d
  let r := w % d
  if 2 * r < d then q
  else if d < 2 * r then q + 1
  else if q % 2 = 0 then q else q + 1

/-- A section record, as built by `process_sections` / `_create_sections`. -/
structure Section where
  title : PyStr
  content : PyStr
  order_index : Nat
  estimated_minutes : Nat
deriving DecidableEq, Repr

/-- `estimate_reading_time` (lines 188-192): `max(1, round(words / 225))`
where `words = len(content.split())`. -/
def estimate_reading_time (content : PyStr) : Nat :=
  max 1 (pyRound (pySplitWs content).length 225)

/-- `DoclingProcessor._estimate_reading_time` (lines 516-523):
`max(1, round(word_count / 200))`. -/
def _estimate_reading_time (content : PyStr) : Nat :=
  max 1 (pyRound (pySplitWs content).length 200)

/-- Heading test of `process_sections`: `line.startswith('#')`. -/
def psIsHeader (l : PyStr) : Bool := pyStartsWith ['#'] l

/-- Section title in `process_sections`: `line.strip('#').strip()`. -/
def psTitle (l : PyStr) : PyStr := pyStrip (pyStripOn (fun c => c = '#') l)

/-- Flushing the current accumulator in `process_sections`: the pending
section is saved only when one exists and its content buffer is non-empty
(`if current_section and section_content`); its content is
`'\n'.join(section_content).strip()`. -/
def psFlush (cur : Option (PyStr × Nat)) (buf : List PyStr) : List Section :=
  match cur with
  | none => []
  | some (t, i) =>
    if buf = [] then []
    else
      let content := pyStrip (pyJoinNl buf)
      [{ title := t, content := content, order_index := i,
         estimated_minutes := estimate_reading_time content }]

/-- The line loop of `process_sections` (lines 145-174).  `cur` is the
pending `(title, order_index)` pair, `buf` the accumulated non-empty lines,
`idx` the next `order_index` to assign. -/
def psLoop : List PyStr → Option (PyStr × Nat) → List PyStr → Nat → List Section
  | [], cur, buf, _ => psFlush cur buf
  | l :: ls, cur, buf, idx =>
    if psIsHeader l then
      psFlush cur buf ++ psLoop ls (some (psTitle l, idx)) [] (idx + 1)
    else if pyStrip l = [] then
      psLoop ls cur buf idx
    else
      psLoop ls cur (buf ++ [l]) idx

/-- `process_sections` (lines 137-185): split markdown at lines starting
with `#`; if no section was produced and the stripped input is non-empty,
emit a single catch-all "Content" section (its reading time is computed on
the unstripped input, as in the source). -/
def process_sections (markdown_content : PyStr) : List Section :=
  let sections := psLoop (pyLines markdown_content) none [] 0
  if sections = [] ∧ pyStrip markdown_content ≠ [] then
    [{ title := "Content".data, content := pyStrip markdown_content,
       order_index := 0,
       estimated_minutes := estimate_reading_time markdown_content }]
  else
    sections

/-- Heading test of `_create_sections`:
`line_stripped.startswith('# ') or line_stripped.startswith('## ')`. -/
def csIsHeader (lstr : PyStr) : Bool :=
  pyStartsWith "# ".data lstr || pyStartsWith "## ".data lstr

/-- The line loop of `_create_sections` (lines 484-512).  `cur` is the
current accumulator (initially the implicit "Introduction" section), `idx`
the current `section_index`. -/
def csLoop : List PyStr → Section → Nat → List Section
  | [], cur, _ =>
    if pyStrip cur.content ≠ [] then
      [{ cur with estimated_minutes := _estimate_reading_time cur.content }]
    else []
  | l :: ls, cur, idx =>
    let lstr := pyStrip l
    if csIsHeader lstr then
      let newCur : Section :=
        { title := pyStrip (lstr.dropWhile (fun c => c = '#')),
          content := l ++ ['\n'], order_index := idx + 1,
          estimated_minutes := 0 }
      if pyStrip cur.content ≠ [] then
        { cur with estimated_minutes := _estimate_reading_time cur.content }
          :: csLoop ls newCur (idx + 1)
      else
        csLoop ls newCur (idx + 1)
    else
      csLoop ls { cur with content := cur.content ++ l ++ ['\n'] } idx

/-- `DoclingProcessor._create_sections` (lines 463-514). -/
def _create_sections (markdown : PyStr) : List Section :=
  csLoop (pyLines markdown)
    { title := "Introduction".data, content := [], order_index := 0,
      estimated_minutes := 0 } 0

/-- A picture entry on the external document object; each descriptive
field is optional (probed with `hasattr` in the source). -/
structure Picture where
  description : Option PyStr
  caption : Option PyStr
  text : Option PyStr
deriving DecidableEq, Repr

/-- The external document object, with its capability fields optional
(`hasattr` probing in the source becomes `Option`).  `export_to_markdown`
is the markdown string the object's method returns; it is the one member
the source calls unconditionally. -/
structure Doc where
  title : Option PyStr
  main_text : Option PyStr
  pages : Option (List Unit)
  _pages : Option (List Unit)
  pictures : Option (List Picture)
  tables : Option (List Unit)
  export_to_markdown : PyStr
deriving DecidableEq, Repr

/-- The parsed command-line flags consumed by `extract_metadata`. -/
structure Args where
  no_ocr : Bool
  no_vlm : Bool
  vlm_model : PyStr
  enable_code_enrichment : Bool
  enable_formula_enrichment : Bool
deriving DecidableEq, Repr

/-- The title-scan step of `extract_title` (lines 253-261): for each of the
first 10 lines, a heading line yields its `#`-stripped text, else a
non-empty line whose stripped form is shorter than 100 characters yields
that stripped text; the first line matching either test wins. -/
def titleLinePick (line : PyStr) : Option PyStr :=
  if pyStartsWith ['#'] line then some (psTitle line)
  else if pyStrip line ≠ [] ∧ (pyStrip line).length < 100 then some (pyStrip line)
  else none

/-- The `elif hasattr(doc, 'main_text')` branch of `extract_title`: scan
the first 10 lines; keep the default "Untitled Document" when no line
matches. -/
def extract_title_from_main (doc : Doc) : PyStr :=
  match doc.main_text with
  | some mt =>
    (((pyLines mt).take 10).findSome? titleLinePick).getD "Untitled Document".data
  | none => "Untitled Document".data

/-- `extract_title` (lines 244-263): the document's truthy `title`
attribute if any, else a scan of the first 10 lines of `main_text`, else
`"Untitled Document"`; the result is truncated to 200 characters. -/
def extract_title (doc : Doc) : PyStr :=
  (match doc.title with
    | some t => if t ≠ [] then t else extract_title_from_main doc
    | none => extract_title_from_main doc).take 200

/-- The per-line test of `_extract_title_from_content` (lines 435-445):
an `'# '` heading line yields its stripped text, else a non-empty line not
starting with `'#'` yields its first 100 characters plus an ellipsis
marker when longer. -/
def ctTitlePick (line : PyStr) : Option PyStr :=
  let ls := pyStrip line
  if pyStartsWith "# ".data ls then some (pyStrip (ls.drop 2))
  else if ls ≠ [] ∧ pyStartsWith ['#'] ls = false then
    some (ls.take 100 ++ (if 100 < ls.length then "...".data else []))
  else none

/-- `DoclingProcessor._extract_title_from_content` (lines 435-445): the
first matching line of the whole text wins; no line-count window and no
200-character truncation on this path. -/
def _extract_title_from_content (markdown : PyStr) : PyStr :=
  ((pyLines markdown).findSome? ctTitlePick).getD "Untitled Document".data

/-- Python `sub in s` for strings. -/
def pyContains (sub l : PyStr) : Bool := decide (sub <:+: l)

/-- Python `str.lower()` (ASCII). -/
def pyLower (l : PyStr) : PyStr := l.map Char.toLower

/-- The `processing_info` sub-record of the metadata (lines 229-239);
`vlm_model` is added only when VLM is not disabled.  The external
`get_docling_version()` call is outside the embedded core; it reports
`"unknown"` when the library is unavailable, which is the value used
here. -/
structure ProcessingInfo where
  ocr_enabled : Bool
  vlm_enabled : Bool
  code_enrichment_enabled : Bool
  formula_enrichment_enabled : Bool
  docling_version : PyStr
  vlm_model : Option PyStr
deriving DecidableEq, Repr

/-- The document-level metadata record assembled by `extract_metadata`. -/
structure Metadata where
  title : PyStr
  page_count : Nat
  has_images : Bool
  has_tables : Bool
  has_code : Bool
  has_formulas : Bool
  processing_info : ProcessingInfo
deriving DecidableEq, Repr

/-- `extract_metadata` (lines 195-241). -/
def extract_metadata (doc : Doc) (args : Args) : Metadata :=
  let page_count :=
    match doc.pages with
    | some p => p.length
    | none =>
      match doc._pages with
      | some p => p.length
      | none => 1
  let has_images :=
    match doc.pictures with
    | some ps => ps ≠ []
    | none => false
  let has_tables :=
    match doc.tables with
    | some ts => ts ≠ []
    | none => false
  let markdown := doc.export_to_markdown
  let has_code := pyContains "```".data markdown || pyContains "`".data markdown
  let has_formulas :=
    pyContains "$".data markdown || pyContains "equation".data (pyLower markdown)
  { title := extract_title doc
    page_count := page_count
    has_images := has_images
    has_tables := has_tables
    has_code := has_code
    has_formulas := has_formulas
    processing_info :=
      { ocr_enabled := !args.no_ocr
        vlm_enabled := !args.no_vlm
        code_enrichment_enabled := args.enable_code_enrichment
        formula_enrichment_enabled := args.enable_formula_enrichment
        docling_version := "unknown".data
        vlm_model := if args.no_vlm then none else some args.vlm_model } }

/-- An image-description record (lines 323-339). -/
structure ImageDescription where
  image_id : PyStr
  description : PyStr
  confidence : ℚ
  extracted_text : Option PyStr
deriving DecidableEq, Repr

/-- `extract_image_descriptions` (lines 317-341): one record per picture in
order, preferring the picture's `description`, then `caption`, then the
fixed default string; `extracted_text` copied when present. -/
def extract_image_descriptions (doc : Doc) : List ImageDescription :=
  match doc.pictures with
  | none => []
  | some ps =>
    ps.enum.map fun p =>
      { image_id := "image_".data ++ (Nat.repr p.1).data
        description :=
          match p.2.description with
          | some d => d
          | none =>
            match p.2.caption with
            | some c => c
            | none => "Image detected in document".data
        confidence := 4 / 5
        extracted_text := p.2.text }

/-- Python `\w` character class (ASCII fragment): alphanumerics and
underscore. -/
def isWordChar (c : Char) : Bool := c.isAlphanum || c = '_'

/-- The lazy tail of a regex `(.*?)` followed by the literal `cls`: the
shortest split `l = body ++ cls ++ rest`, scanning left to right
(`re.DOTALL`, so `body` may contain newlines).  Returns `(body, rest)`. -/
def findClose (cls : PyStr) : PyStr → Option (PyStr × PyStr)
  | [] => none
  | c :: cs =>
    if List.isPrefixOf cls (c :: cs) then some ([], (c :: cs).drop cls.length)
    else
      match findClose cls cs with
      | some (b, r) => some (c :: b, r)
      | none => none

/-- A code-snippet record (lines 279-285). -/
structure CodeSnippet where
  code : PyStr
  language : PyStr
  description : PyStr
  line_start : Nat
  line_end : Nat
deriving DecidableEq, Repr

/-- One attempted match of `` r'```(\w+)?\n(.*?)\n``​`' `` at the head of
`l`: the opening fence, a maximal (greedy, optional) run of word
characters as the language tag, a newline, then the shortest body followed
by a closing `\n``​` `.  Returns the optional tag, the body, the remaining
text after the match, and the full matched span. -/
def tryFence (l : PyStr) : Option (Option PyStr × PyStr × PyStr × PyStr) :=
  if List.isPrefixOf "```".data l then
    let l1 := l.drop 3
    let run := l1.takeWhile isWordChar
    let l2 := l1.dropWhile isWordChar
    match l2 with
    | '\n' :: l3 =>
      match findClose "\n```".data l3 with
      | some (body, rest) =>
        some (if run = [] then none else some run, body, rest,
          "```".data ++ run ++ '\n' :: (body ++ "\n```".data))
      | none => none
    | _ => none
  else none

/-- The `re.finditer` loop of `extract_code_snippets`: try a match at every
position left to right, skipping past each match (non-overlapping).  `pre`
is the text before the current position, used exactly as the source uses
`content[:match.start()]` / `content[:match.end()]` for the 1-based line
numbers.  `fuel` bounds the recursion; `extract_code_snippets` supplies
enough for the whole text. -/
def scanCode : Nat → PyStr → PyStr → List CodeSnippet
  | 0, _, _ => []
  | _ + 1, _, [] => []
  | fuel + 1, pre, c :: cs =>
    match tryFence (c :: cs) with
    | some (lang, body, rest, span) =>
      let language := match lang with | some r => r | none => "unknown".data
      { code := pyStrip body
        language := language
        description := "Code snippet in ".data ++ language
        line_start := pre.count '\n' + 1
        line_end := (pre ++ span).count '\n' + 1 }
        :: scanCode fuel (pre ++ span) rest
    | none => scanCode fuel (pre ++ [c]) cs

/-- `extract_code_snippets` (lines 266-288). -/
def extract_code_snippets (content : PyStr) : List CodeSnippet :=
  scanCode (content.length + 1) [] content

/-- A formula record (lines 306-311). -/
structure Formula where
  formula : PyStr
  description : PyStr
  type : PyStr
  line_number : Nat
deriving DecidableEq, Repr

/-- The `re.finditer` loop for one formula pattern `opn (.*?) cls`
(`re.DOTALL`): at each position, if the opening literal matches, take the
lazily shortest body up to the closing literal and skip past the match;
otherwise advance one character.  Emits `(raw capture, line number)`
pairs; the line number counts newlines in the text before the match start,
plus one. -/
def scanPat (opn cls : PyStr) : Nat → PyStr → PyStr → List (PyStr × Nat)
  | 0, _, _ => []
  | _ + 1, _, [] => []
  | fuel + 1, pre, c :: cs =>
    if List.isPrefixOf opn (c :: cs) then
      match findClose cls ((c :: cs).drop opn.length) with
      | some (body, rest) =>
        (body, pre.count '\n' + 1)
          :: scanPat opn cls fuel (pre ++ opn ++ body ++ cls) rest
      | none => scanPat opn cls fuel (pre ++ [c]) cs
    else scanPat opn cls fuel (pre ++ [c]) cs

/-- Build a `Formula` from a raw capture, discarding it when its stripped
text is empty (`if formula:`). -/
def mkFormula (p : PyStr × Nat) : Option Formula :=
  let f := pyStrip p.1
  if f = [] then none
  else
    some
      { formula := f
        description := "Mathematical expression: ".data ++ f.take 50 ++
          (if 50 < f.length then "...".data else [])
        type := "mathematical".data
        line_number := p.2 }

/-- The matches of one formula pattern over the whole text, filtered to
non-empty captures, in positional order. -/
def formulaFam (opn cls content : PyStr) : List Formula :=
  (scanPat opn cls (content.length + 1) [] content).filterMap mkFormula

/-- `extract_formulas` (lines 291-314): the three pattern families are run
in a fixed order over the whole text, and their results concatenated. -/
def extract_formulas (content : PyStr) : List Formula :=
  formulaFam "$$".data "$$".data content
    ++ formulaFam "$".data "$".data content
    ++ formulaFam "\\begin{equation}".data "\\end{equation}".data content

/-! ### Lemmas about whitespace splitting (`str.split()`) -/

theorem pySplitWsAcc_all_space {ys : PyStr} (h : ∀ c ∈ ys, isPySpace c = true) :
    ∀ acc : List Char,
      pySplitWsAcc ys acc = if acc = [] then [] else [acc.reverse] := by
  induction ys with
  | nil => intro acc; rfl
  | cons c cs ih =>
    intro acc
    have hc : isPySpace c = true := h c (by simp)
    have hcs : ∀ x ∈ cs, isPySpace x = true := fun x hx => h x (by simp [hx])
    have hnil : pySplitWsAcc cs [] = [] := by simpa using ih hcs []
    by_cases ha : acc = [] <;> simp [pySplitWsAcc, hc, ha, hnil]

theorem pySplitWsAcc_append_space {s : Char} (hs : isPySpace s = true)
    (a : PyStr) : ∀ (b : PyStr) (acc : List Char),
      pySplitWsAcc (a ++ s :: b) acc = pySplitWsAcc a acc ++ pySplitWsAcc b [] := by
  induction a with
  | nil =>
    intro b acc
    by_cases ha : acc = [] <;> simp [pySplitWsAcc, hs, ha]
  | cons c cs ih =>
    intro b acc
    by_cases hc : isPySpace c
    · by_cases ha : acc = [] <;> simp [pySplitWsAcc, hc, ha, ih]
    · simp [pySplitWsAcc, hc, ih]

theorem pySplitWsAcc_append_all_space {ys : PyStr}
    (h : ∀ c ∈ ys, isPySpace c = true) (a : PyStr) :
    ∀ acc : List Char, pySplitWsAcc (a ++ ys) acc = pySplitWsAcc a acc := by
  induction a with
  | nil =>
    intro acc
    rw [List.nil_append, pySplitWsAcc_all_space h]
    rfl
  | cons c cs ih =>
    intro acc
    by_cases hc : isPySpace c
    · by_cases ha : acc = [] <;> simp [pySplitWsAcc, hc, ha, ih]
    · simp [pySplitWsAcc, hc, ih]

theorem pySplitWsAcc_dropWhile (l : PyStr) :
    pySplitWsAcc (l.dropWhile isPySpace) [] = pySplitWsAcc l [] := by
  induction l with
  | nil => rfl
  | cons c cs ih =>
    by_cases hc : isPySpace c
    · simpa [List.dropWhile, hc, pySplitWsAcc] using ih
    · simp [List.dropWhile, hc]

theorem pySplitWsAcc_pyDropTrail (m : PyStr) :
    pySplitWsAcc (pyDropTrail isPySpace m) [] = pySplitWsAcc m [] := by
  have hsp : ∀ c ∈ (m.reverse.takeWhile isPySpace).reverse, isPySpace c = true := by
    intro c hcm
    exact List.mem_takeWhile_imp (List.mem_reverse.mp hcm)
  conv_rhs =>
    rw [show m = ((m.reverse.takeWhile isPySpace) ++ (m.reverse.dropWhile isPySpace)).reverse by
      rw [List.takeWhile_append_dropWhile, List.reverse_reverse]]
  rw [List.reverse_append, pySplitWsAcc_append_all_space hsp]
  rfl

/-- Stripping surrounding whitespace does not change the word list. -/
theorem pySplitWs_pyStrip (l : PyStr) : pySplitWs (pyStrip l) = pySplitWs l := by
  unfold pySplitWs pyStrip pyStripOn
  rw [pySplitWsAcc_pyDropTrail, pySplitWsAcc_dropWhile]

/-- A string that strips to empty has no words. -/
theorem pySplitWs_eq_nil_of_strip (l : PyStr) (h : pyStrip l = []) :
    pySplitWs l = [] := by
  rw [← pySplitWs_pyStrip, h]; rfl

/-- Words of a newline-join are the concatenation of the words of the
parts. -/
theorem pySplitWs_pyJoinNl (bufs : List PyStr) :
    pySplitWs (pyJoinNl bufs) = (bufs.map pySplitWs).flatten := by
  induction bufs with
  | nil => rfl
  | cons x bufs ih =>
    cases bufs with
    | nil => simp [pyJoinNl]
    | cons y r =>
      show pySplitWs (x ++ '\n' :: pyJoinNl (y :: r)) = _
      unfold pySplitWs
      rw [pySplitWsAcc_append_space (by decide : isPySpace '\n' = true)]
      simp only [List.map_cons, List.flatten_cons]
      exact congrArg _ ih

/-! ### Lemmas about line splitting (`str.split('\n')`) -/

theorem pyLines_ne_nil (l : PyStr) : pyLines l ≠ [] := by
  cases l with
  | nil => simp [pyLines]
  | cons c cs =>
    simp only [pyLines]
    cases h : pyLines cs with
    | nil => simp
    | cons r rs => by_cases hc : c = '\n' <;> simp [hc]

theorem mem_of_mem_pyLines {l : PyStr} :
    ∀ line ∈ pyLines l, ∀ c ∈ line, c ∈ l := by
  induction l with
  | nil =>
    intro line hl c hc
    simp [pyLines] at hl
    subst hl
    simp at hc
  | cons d ds ih =>
    intro line hl c hc
    rcases hr : pyLines ds with _ | ⟨r, rs⟩
    · exact absurd hr (pyLines_ne_nil ds)
    · simp only [pyLines, hr] at hl
      by_cases hd : d = '\n'
      · simp only [hd, if_true] at hl
        rcases List.mem_cons.mp hl with h1 | h2
        · subst h1; simp at hc
        · exact List.mem_cons_of_mem _ (ih line (hr ▸ h2) c hc)
      · simp only [hd, if_false] at hl
        rcases List.mem_cons.mp hl with h1 | h2
        · subst h1
          rcases List.mem_cons.mp hc with h3 | h4
          · exact h3 ▸ List.mem_cons_self _ _
          · exact List.mem_cons_of_mem _
              (ih r (hr ▸ List.mem_cons_self _ _) c h4)
        · exact List.mem_cons_of_mem _
            (ih line (hr ▸ List.mem_cons_of_mem _ h2) c hc)

theorem pyLines_append_newline {a : PyStr} (ha : '\n' ∉ a) (b : PyStr) :
    pyLines (a ++ '\n' :: b) = a :: pyLines b := by
  induction a with
  | nil =>
    simp only [List.nil_append, pyLines]
    rcases h : pyLines b with _ | ⟨r, rs⟩
    · exact absurd h (pyLines_ne_nil b)
    · simp
  | cons c cs ih =>
    have hc : c ≠ '\n' := fun h => ha (h ▸ List.mem_cons_self _ _)
    have hcs : '\n' ∉ cs := fun h => ha (List.mem_cons_of_mem _ h)
    simp only [List.cons_append, pyLines, List.append_eq]
    rw [ih hcs]
    simp [hc]

/-! ### Lemmas about `process_sections` -/

/-- The concatenated word lists of the contents of a section list
(the amended-claim reading of "concatenating all `content` fields,
modulo whitespace normalization"). -/
def sectionWords (secs : List Section) : List PyStr :=
  (secs.map (fun s => pySplitWs s.content)).flatten

/-- Modelled from the spec: the words of the non-heading lines of a
line list ("body content"). -/
def bodyWords (ls : List PyStr) : List PyStr :=
  ((ls.filter (fun l => !psIsHeader l)).map pySplitWs).flatten

/-- Modelled from the spec: the words of the non-heading lines located
after the first heading line. -/
def afterFirstHeaderWords : List PyStr → List PyStr
  | [] => []
  | l :: ls => if psIsHeader l then bodyWords ls else afterFirstHeaderWords ls

theorem sectionWords_append (a b : List Section) :
    sectionWords (a ++ b) = sectionWords a ++ sectionWords b := by
  simp [sectionWords]

theorem sectionWords_psFlush (t : PyStr) (i : Nat) (buf : List PyStr) :
    sectionWords (psFlush (some (t, i)) buf) = (buf.map pySplitWs).flatten := by
  by_cases hb : buf = []
  · simp [psFlush, hb, sectionWords]
  · simp only [psFlush, hb, if_false, sectionWords, List.map_cons, List.map_nil,
      List.flatten_cons, List.flatten_nil, List.append_nil]
    rw [pySplitWs_pyStrip, pySplitWs_pyJoinNl]

theorem sectionWords_psLoop_some (ls : List PyStr) :
    ∀ (t : PyStr) (i : Nat) (buf : List PyStr) (idx : Nat),
      sectionWords (psLoop ls (some (t, i)) buf idx)
        = (buf.map pySplitWs).flatten ++ bodyWords ls := by
  induction ls with
  | nil =>
    intro t i buf idx
    simp [psLoop, sectionWords_psFlush, bodyWords]
  | cons l ls ih =>
    intro t i buf idx
    by_cases h1 : psIsHeader l
    · simp only [psLoop, h1, if_true, sectionWords_append, sectionWords_psFlush,
        ih, List.map_nil, List.flatten_nil, List.nil_append, bodyWords,
        List.filter_cons, Bool.not_eq_true']
      simp [h1, List.append_assoc]
    · have hwl : pyStrip l = [] → pySplitWs l = [] := pySplitWs_eq_nil_of_strip l
      by_cases h2 : pyStrip l = []
      · rw [show psLoop (l :: ls) (some (t, i)) buf idx
            = psLoop ls (some (t, i)) buf idx from by simp [psLoop, h1, h2]]
        rw [ih]
        simp [bodyWords, List.filter_cons, h1, hwl h2]
      · rw [show psLoop (l :: ls) (some (t, i)) buf idx
            = psLoop ls (some (t, i)) (buf ++ [l]) idx from by simp [psLoop, h1, h2]]
        rw [ih]
        simp [bodyWords, List.filter_cons, h1, List.append_assoc]

theorem sectionWords_psLoop_none (ls : List PyStr) :
    ∀ (buf : List PyStr) (idx : Nat),
      sectionWords (psLoop ls none buf idx) = afterFirstHeaderWords ls := by
  induction ls with
  | nil => intro buf idx; simp [psLoop, psFlush, sectionWords, afterFirstHeaderWords]
  | cons l ls ih =>
    intro buf idx
    by_cases h1 : psIsHeader l
    · simp only [psLoop, h1, if_true, sectionWords_append, afterFirstHeaderWords,
        sectionWords_psLoop_some]
      simp [psFlush, sectionWords]
    · by_cases h2 : pyStrip l = [] <;>
        simp [psLoop, h1, h2, ih, afterFirstHeaderWords]

theorem psIsHeader_false_of_space {l : PyStr} (h : ∀ c ∈ l, isPySpace c = true) :
    psIsHeader l = false := by
  cases l with
  | nil => rfl
  | cons c cs =>
    have hc := h c (List.mem_cons_self _ _)
    have hne : c ≠ '#' := by
      intro he
      rw [he] at hc
      exact absurd hc (by decide)
    simp [psIsHeader, pyStartsWith, List.isPrefixOf, Ne.symm hne]

theorem pyStrip_eq_nil_of_space {l : PyStr} (h : ∀ c ∈ l, isPySpace c = true) :
    pyStrip l = [] := by
  unfold pyStrip pyStripOn
  rw [List.dropWhile_eq_nil_iff.mpr (by simpa using h)]
  rfl

theorem psLoop_all_space (ls : List PyStr)
    (h : ∀ l ∈ ls, ∀ c ∈ l, isPySpace c = true) :
    ∀ (buf : List PyStr) (idx : Nat), psLoop ls none buf idx = [] := by
  induction ls with
  | nil => intro buf idx; rfl
  | cons l ls ih =>
    intro buf idx
    have hl := h l (List.mem_cons_self _ _)
    have hls : ∀ l' ∈ ls, ∀ c ∈ l', isPySpace c = true :=
      fun l' hl' => h l' (List.mem_cons_of_mem _ hl')
    simp [psLoop, psIsHeader_false_of_space hl, pyStrip_eq_nil_of_space hl, ih hls]

/-! ### Order-index lemmas for `process_sections` -/

theorem psLoop_order_lb (ls : List PyStr) :
    ∀ (cur : Option (PyStr × Nat)) (buf : List PyStr) (idx : Nat),
      (∀ t i, cur = some (t, i) → i < idx) →
      ∀ s ∈ psLoop ls cur buf idx, cur.elim idx Prod.snd ≤ s.order_index := by
  induction ls with
  | nil =>
    intro cur buf idx _ s hs
    match cur with
    | none => simp [psLoop, psFlush] at hs
    | some (t, i) =>
      by_cases hb : buf = []
      · simp [psLoop, psFlush, hb] at hs
      · simp only [psLoop, psFlush, hb, if_false, List.mem_singleton] at hs
        subst hs
        simp
  | cons l ls ih =>
    intro cur buf idx hc s hs
    by_cases h1 : psIsHeader l
    · rw [show psLoop (l :: ls) cur buf idx
          = psFlush cur buf ++ psLoop ls (some (psTitle l, idx)) [] (idx + 1)
          from by simp [psLoop, h1]] at hs
      rcases List.mem_append.mp hs with hf | hrest
      · match cur with
        | none => simp [psFlush] at hf
        | some (t, i) =>
          by_cases hb : buf = []
          · simp [psFlush, hb] at hf
          · simp only [psFlush, hb, if_false, List.mem_singleton] at hf
            subst hf
            simp
      · have hlb := ih (some (psTitle l, idx)) [] (idx + 1)
          (by intro t i h; cases h; omega) s hrest
        simp only [Option.elim] at hlb
        match cur with
        | none => exact hlb
        | some (t, i) => exact le_trans (le_of_lt (hc t i rfl)) hlb
    · by_cases h2 : pyStrip l = []
      · rw [show psLoop (l :: ls) cur buf idx = psLoop ls cur buf idx
            from by simp [psLoop, h1, h2]] at hs
        exact ih cur buf idx hc s hs
      · rw [show psLoop (l :: ls) cur buf idx = psLoop ls cur (buf ++ [l]) idx
            from by simp [psLoop, h1, h2]] at hs
        exact ih cur (buf ++ [l]) idx hc s hs

theorem psLoop_pairwise (ls : List PyStr) :
    ∀ (cur : Option (PyStr × Nat)) (buf : List PyStr) (idx : Nat),
      (∀ t i, cur = some (t, i) → i < idx) →
      List.Pairwise (fun a b => a.order_index < b.order_index)
        (psLoop ls cur buf idx) := by
  induction ls with
  | nil =>
    intro cur buf idx _
    match cur with
    | none => simp [psLoop, psFlush]
    | some (t, i) => by_cases hb : buf = [] <;> simp [psLoop, psFlush, hb]
  | cons l ls ih =>
    intro cur buf idx hc
    by_cases h1 : psIsHeader l
    · rw [show psLoop (l :: ls) cur buf idx
          = psFlush cur buf ++ psLoop ls (some (psTitle l, idx)) [] (idx + 1)
          from by simp [psLoop, h1]]
      rw [List.pairwise_append]
      refine ⟨?_, ih _ _ _ (by intro t i h; cases h; omega), ?_⟩
      · match cur with
        | none => simp [psFlush]
        | some (t, i) => by_cases hb : buf = [] <;> simp [psFlush, hb]
      · intro a ha b hb
        have hlb := psLoop_order_lb ls (some (psTitle l, idx)) [] (idx + 1)
          (by intro t i h; cases h; omega) b hb
        simp only [Option.elim] at hlb
        match cur with
        | none => simp [psFlush] at ha
        | some (t, i) =>
          by_cases hbuf : buf = []
          · simp [psFlush, hbuf] at ha
          · simp only [psFlush, hbuf, if_false, List.mem_singleton] at ha
            subst ha
            have : i < idx := hc t i rfl
            simp only
            omega
    · by_cases h2 : pyStrip l = []
      · rw [show psLoop (l :: ls) cur buf idx = psLoop ls cur buf idx
            from by simp [psLoop, h1, h2]]
        exact ih cur buf idx hc
      · rw [show psLoop (l :: ls) cur buf idx = psLoop ls cur (buf ++ [l]) idx
            from by simp [psLoop, h1, h2]]
        exact ih cur (buf ++ [l]) idx hc

/-! ### Heading/content block inputs for `process_sections` -/

/-- One heading line (`#` followed by the block title) and one content
line per block. -/
def blockLines : List (PyStr × PyStr) → List PyStr
  | [] => []
  | p :: ps => ('#' :: p.1) :: p.2 :: blockLines ps

/-- The markdown text built from heading/content blocks. -/
def mkBlockInput (bs : List (PyStr × PyStr)) : PyStr :=
  (bs.map (fun p => ('#' :: p.1) ++ ('\n' :: (p.2 ++ ['\n'])))).flatten

/-- Well-formedness of one block: single-line title and content, the
content is not itself a heading line and is not blank. -/
abbrev blockOk (p : PyStr × PyStr) : Prop :=
  '\n' ∉ p.1 ∧ '\n' ∉ p.2 ∧ psIsHeader p.2 = false ∧ pyStrip p.2 ≠ []

theorem pyLines_mkBlockInput :
    ∀ bs : List (PyStr × PyStr), (∀ p ∈ bs, blockOk p) →
      pyLines (mkBlockInput bs) = blockLines bs ++ [[]] := by
  intro bs
  induction bs with
  | nil => intro _; rfl
  | cons p ps ih =>
    intro h
    obtain ⟨h1, h2, -, -⟩ := h p (List.mem_cons_self _ _)
    have hps := fun q hq => h q (List.mem_cons_of_mem _ hq)
    show pyLines ((('#' :: p.1) ++ ('\n' :: (p.2 ++ ['\n']))) ++ mkBlockInput ps) = _
    have hsh : (('#' :: p.1) ++ ('\n' :: (p.2 ++ ['\n']))) ++ mkBlockInput ps
        = ('#' :: p.1) ++ ('\n' :: (p.2 ++ ('\n' :: mkBlockInput ps))) := by
      simp
    have hn1 : '\n' ∉ ('#' :: p.1) := by
      intro hmem
      rcases List.mem_cons.mp hmem with h' | h'
      · exact absurd h' (by decide)
      · exact h1 h'
    rw [hsh, pyLines_append_newline hn1, pyLines_append_newline h2, ih hps]
    rfl

theorem psLoop_blocks :
    ∀ (bs : List (PyStr × PyStr)), (∀ p ∈ bs, blockOk p) →
      ∀ (t : PyStr) (i : Nat) (c : PyStr),
        (psLoop (blockLines bs ++ [[]]) (some (t, i)) [c] (i + 1)).map
            Section.order_index
          = List.range' i (bs.length + 1) := by
  intro bs
  induction bs with
  | nil =>
    intro _ t i c
    show (psLoop [[]] (some (t, i)) [c] (i + 1)).map _ = _
    rw [show psLoop [[]] (some (t, i)) [c] (i + 1)
        = psLoop [] (some (t, i)) [c] (i + 1) from by
      simp [psLoop, psIsHeader, pyStartsWith, List.isPrefixOf,
        show pyStrip ([] : PyStr) = [] from rfl]]
    simp [psLoop, psFlush, List.range'_succ]
  | cons p ps ih =>
    intro h t i c
    obtain ⟨-, -, hh, hs⟩ := h p (List.mem_cons_self _ _)
    have hps := fun q hq => h q (List.mem_cons_of_mem _ hq)
    have hhd : psIsHeader ('#' :: p.1) = true := by
      simp [psIsHeader, pyStartsWith, List.isPrefixOf]
    show (psLoop (('#' :: p.1) :: p.2 :: (blockLines ps ++ [[]]))
        (some (t, i)) [c] (i + 1)).map _ = _
    rw [show psLoop (('#' :: p.1) :: p.2 :: (blockLines ps ++ [[]]))
          (some (t, i)) [c] (i + 1)
        = psFlush (some (t, i)) [c]
          ++ psLoop (p.2 :: (blockLines ps ++ [[]]))
              (some (psTitle ('#' :: p.1), i + 1)) [] (i + 2)
        from by simp [psLoop, hhd]]
    rw [show psLoop (p.2 :: (blockLines ps ++ [[]]))
          (some (psTitle ('#' :: p.1), i + 1)) [] (i + 2)
        = psLoop (blockLines ps ++ [[]])
            (some (psTitle ('#' :: p.1), i + 1)) [p.2] (i + 2)
        from by simp [psLoop, hh, hs]]
    rw [show (i : Nat) + 2 = (i + 1) + 1 from rfl]
    simp only [List.map_append]
    rw [ih hps (psTitle ('#' :: p.1)) (i + 1) p.2]
    rw [show List.range' i ((p :: ps).length + 1)
        = i :: List.range' (i + 1) (ps.length + 1) from by
      rw [List.length_cons]
      exact List.range'_succ i (ps.length + 1) 1]
    simp [psFlush]

/-! ### Lemmas about `_create_sections` -/

theorem csLoop_no_header_prefix :
    ∀ (pre : List PyStr), (∀ l ∈ pre, csIsHeader (pyStrip l) = false) →
      ∀ (rest : List PyStr) (cur : Section) (idx : Nat),
        csLoop (pre ++ rest) cur idx
          = csLoop rest
              { cur with content :=
                  cur.content ++ (pre.map (fun l => l ++ ['\n'])).flatten } idx := by
  intro pre
  induction pre with
  | nil =>
    intro _ rest cur idx
    cases cur
    simp
  | cons l pre ih =>
    intro h rest cur idx
    have hl := h l (List.mem_cons_self _ _)
    have hpre := fun q hq => h q (List.mem_cons_of_mem _ hq)
    show csLoop (l :: (pre ++ rest)) cur idx = _
    rw [show csLoop (l :: (pre ++ rest)) cur idx
        = csLoop (pre ++ rest)
            { cur with content := cur.content ++ l ++ ['\n'] } idx from by
      simp [csLoop, hl]]
    rw [ih hpre]
    cases cur
    simp [List.append_assoc]

/-! ### Lemmas about the code-snippet scanner -/

theorem scanCode_line_bounds :
    ∀ (fuel : Nat) (pre l : PyStr), ∀ s ∈ scanCode fuel pre l,
      pre.count '\n' + 1 ≤ s.line_start ∧ s.line_start ≤ s.line_end := by
  intro fuel
  induction fuel with
  | zero => intro pre l s hs; simp [scanCode] at hs
  | succ fuel ih =>
    intro pre l s hs
    match l with
    | [] => simp [scanCode] at hs
    | c :: cs =>
      simp only [scanCode] at hs
      split at hs
      · rcases List.mem_cons.mp hs with h1 | h2
        · subst h1
          refine ⟨le_refl _, ?_⟩
          simp only [List.count_append]
          omega
        · have := ih _ _ s h2
          simp only [List.count_append] at this
          exact ⟨by omega, this.2⟩
      · have := ih _ _ s hs
        simp only [List.count_append] at this
        exact ⟨by omega, this.2⟩

theorem scanCode_pairwise :
    ∀ (fuel : Nat) (pre l : PyStr),
      List.Pairwise (fun a b => a.line_end ≤ b.line_start) (scanCode fuel pre l) := by
  intro fuel
  induction fuel with
  | zero => intro pre l; simp [scanCode]
  | succ fuel ih =>
    intro pre l
    match l with
    | [] => simp [scanCode]
    | c :: cs =>
      simp only [scanCode]
      split
      · refine List.Pairwise.cons ?_ (ih _ _)
        intro b hb
        have := (scanCode_line_bounds fuel _ _ b hb).1
        simp only [List.count_append] at this ⊢
        omega
      · exact ih _ _

/-! ### Lemmas about the formula scanner -/

theorem scanPat_line_lb (opn cls : PyStr) :
    ∀ (fuel : Nat) (pre l : PyStr), ∀ p ∈ scanPat opn cls fuel pre l,
      pre.count '\n' + 1 ≤ p.2 := by
  intro fuel
  induction fuel with
  | zero => intro pre l p hp; simp [scanPat] at hp
  | succ fuel ih =>
    intro pre l p hp
    match l with
    | [] => simp [scanPat] at hp
    | c :: cs =>
      simp only [scanPat] at hp
      split at hp
      · split at hp
        · rcases List.mem_cons.mp hp with h1 | h2
          · subst h1; exact le_refl _
          · have := ih _ _ p h2
            simp only [List.count_append] at this
            omega
        · have := ih _ _ p hp
          simp only [List.count_append] at this
          omega
      · have := ih _ _ p hp
        simp only [List.count_append] at this
        omega

theorem scanPat_pairwise (opn cls : PyStr) :
    ∀ (fuel : Nat) (pre l : PyStr),
      List.Pairwise (fun a b => a.2 ≤ b.2) (scanPat opn cls fuel pre l) := by
  intro fuel
  induction fuel with
  | zero => intro pre l; simp [scanPat]
  | succ fuel ih =>
    intro pre l
    match l with
    | [] => simp [scanPat]
    | c :: cs =>
      simp only [scanPat]
      split
      · split
        · refine List.Pairwise.cons ?_ (ih _ _)
          intro b hb
          have := scanPat_line_lb opn cls fuel _ _ b hb
          simp only [List.count_append] at this
          omega
        · exact ih _ _
      · exact ih _ _

theorem mkFormula_line {p : PyStr × Nat} {f : Formula}
    (h : mkFormula p = some f) : f.line_number = p.2 := by
  by_cases hc : pyStrip p.1 = []
  · simp [mkFormula, hc] at h
  · simp only [mkFormula, hc, if_false, Option.some.injEq] at h
    rw [← h]

theorem mkFormula_nonempty {p : PyStr × Nat} {f : Formula}
    (h : mkFormula p = some f) : f.formula ≠ [] := by
  by_cases hc : pyStrip p.1 = []
  · simp [mkFormula, hc] at h
  · simp only [mkFormula, hc, if_false, Option.some.injEq] at h
    rw [← h]
    simpa using hc

theorem formulaFam_pairwise (opn cls content : PyStr) :
    List.Pairwise (fun f g => f.line_number ≤ g.line_number)
      (formulaFam opn cls content) := by
  unfold formulaFam
  rw [List.pairwise_filterMap]
  refine (scanPat_pairwise opn cls (content.length + 1) [] content).imp ?_
  intro a b hab f hf g hg
  rw [mkFormula_line hf, mkFormula_line hg]
  exact hab

/-! ### Remaining helper lemmas -/

theorem process_sections_eq (md : PyStr) :
    process_sections md
      = if psLoop (pyLines md) none [] 0 = [] ∧ pyStrip md ≠ [] then
          [{ title := "Content".data, content := pyStrip md, order_index := 0,
             estimated_minutes := estimate_reading_time md }]
        else psLoop (pyLines md) none [] 0 := rfl

theorem findSome?_first {α β : Type} (f : α → Option β) (pre : List α)
    (l : α) (rest : List α) (hpre : ∀ p ∈ pre, f p = none) (ti : β)
    (hl : f l = some ti) : (pre ++ l :: rest).findSome? f = some ti := by
  rw [List.findSome?_append, List.findSome?_eq_none_iff.mpr hpre]
  simp [List.findSome?_cons, hl]

theorem csLoop_flush_at_header (hl : PyStr) (rest : List PyStr) (cur : Section)
    (idx : Nat) (hhl : csIsHeader (pyStrip hl) = true)
    (hne : pyStrip cur.content ≠ []) :
    csLoop (hl :: rest) cur idx
      = { cur with estimated_minutes := _estimate_reading_time cur.content }
        :: csLoop rest
            { title := pyStrip ((pyStrip hl).dropWhile (fun c => c = '#')),
              content := hl ++ ['\n'], order_index := idx + 1,
              estimated_minutes := 0 } (idx + 1) := by
  simp [csLoop, hhl, hne]

/-! ### Claim C4 -/

/-- C4: for every content string, the reading-time estimate equals
`max(1, round(word_count / WPM))` with whitespace-delimited word counting
and a fixed WPM in the 200-225 range (225 in `estimate_reading_time`, 200
in `_estimate_reading_time`); the result is at least 1 (never 0 or
negative), and one-word content yields exactly 1 on both paths. -/
theorem C4_reading_time (content : PyStr) :
    estimate_reading_time content
        = max 1 (pyRound (pySplitWs content).length 225)
      ∧ _estimate_reading_time content
        = max 1 (pyRound (pySplitWs content).length 200)
      ∧ 1 ≤ estimate_reading_time content
      ∧ 1 ≤ _estimate_reading_time content
      ∧ ((pySplitWs content).length = 1 →
          estimate_reading_time content = 1
            ∧ _estimate_reading_time content = 1) := by
  refine ⟨rfl, rfl, le_max_left _ _, le_max_left _ _, ?_⟩
  intro h
  constructor
  · show max 1 (pyRound (pySplitWs content).length 225) = 1
    rw [h]
    decide
  · show max 1 (pyRound (pySplitWs content).length 200) = 1
    rw [h]
    decide

/-- Witness for C4: the one-word content "hello". -/
theorem C4_reading_time_witness :
    (pySplitWs "hello".data).length = 1
      ∧ estimate_reading_time "hello".data = 1
      ∧ _estimate_reading_time "hello".data = 1 :=
  ⟨by decide, (C4_reading_time "hello".data).2.2.2.2 (by decide)⟩

/-! ### Claim C9 -/

/-- C9: for every input that is empty or consists only of whitespace,
`process_sections` returns the empty section list (the catch-all
"Content" section is guarded by the stripped input being non-empty). -/
theorem C9_blank_input (md : PyStr) (h : ∀ c ∈ md, isPySpace c = true) :
    process_sections md = [] := by
  have hlines : ∀ l ∈ pyLines md, ∀ c ∈ l, isPySpace c = true :=
    fun l hl c hc => h c (mem_of_mem_pyLines l hl c hc)
  have hloop := psLoop_all_space (pyLines md) hlines [] 0
  have hstrip := pyStrip_eq_nil_of_space h
  rw [process_sections_eq, hloop, if_neg (by simp [hstrip])]

/-- Witness for C9: a whitespace-only input. -/
theorem C9_blank_input_witness : process_sections "  \n ".data = [] :=
  C9_blank_input "  \n ".data (by decide)

/-! ### Claim C8 -/

/-- C8: a document object with none of the optional capability fields
still yields complete default metadata — `page_count` defaults to 1,
`has_images` and `has_tables` are false, the title falls back to
"Untitled Document" — and the image-description list is empty; nothing
aborts (the embedded functions are total). -/
theorem C8_missing_fields (md : PyStr) (args : Args) :
    (extract_metadata
        { title := none, main_text := none, pages := none, _pages := none,
          pictures := none, tables := none, export_to_markdown := md }
        args).page_count = 1
  ∧ (extract_metadata
        { title := none, main_text := none, pages := none, _pages := none,
          pictures := none, tables := none, export_to_markdown := md }
        args).has_images = false
  ∧ (extract_metadata
        { title := none, main_text := none, pages := none, _pages := none,
          pictures := none, tables := none, export_to_markdown := md }
        args).has_tables = false
  ∧ (extract_metadata
        { title := none, main_text := none, pages := none, _pages := none,
          pictures := none, tables := none, export_to_markdown := md }
        args).title = "Untitled Document".data
  ∧ extract_image_descriptions
        { title := none, main_text := none, pages := none, _pages := none,
          pictures := none, tables := none, export_to_markdown := md } = [] :=
  ⟨rfl, rfl, rfl, rfl, rfl⟩

/-! ### Claim C5 -/

/-- C5: every emitted code snippet has 1-based line numbers with
`line_start ≤ line_end`, snippets appear in source-position order (each
one's `line_end` is at most the next one's `line_start`), and on the two
spec examples the language is the fence tag (or "unknown" without a tag)
and the code is the trimmed block body. -/
theorem C5_code_snippets :
    (∀ content : PyStr, ∀ s ∈ extract_code_snippets content,
        1 ≤ s.line_start ∧ s.line_start ≤ s.line_end)
  ∧ (∀ content : PyStr,
      List.Pairwise (fun a b => a.line_end ≤ b.line_start)
        (extract_code_snippets content))
  ∧ extract_code_snippets "```python\nprint(1)\n```".data
      = [{ code := "print(1)".data, language := "python".data,
           description := "Code snippet in python".data,
           line_start := 1, line_end := 3 }]
  ∧ extract_code_snippets "```\nx=1\n```".data
      = [{ code := "x=1".data, language := "unknown".data,
           description := "Code snippet in unknown".data,
           line_start := 1, line_end := 3 }] := by
  refine ⟨?_, fun content => scanCode_pairwise _ [] content, by decide, by decide⟩
  intro content s hs
  have h := scanCode_line_bounds (content.length + 1) [] content s hs
  simpa using h

/-- Witness for C5 at the tagged-fence example. -/
theorem C5_code_snippets_witness :
    1 ≤ ({ code := "print(1)".data, language := "python".data,
           description := "Code snippet in python".data,
           line_start := 1, line_end := 3 } : CodeSnippet).line_start
      ∧ ({ code := "print(1)".data, language := "python".data,
           description := "Code snippet in python".data,
           line_start := 1, line_end := 3 } : CodeSnippet).line_start
        ≤ ({ code := "print(1)".data, language := "python".data,
             description := "Code snippet in python".data,
             line_start := 1, line_end := 3 } : CodeSnippet).line_end :=
  C5_code_snippets.1 "```python\nprint(1)\n```".data _ (by decide)

/-! ### Claim C6 -/

theorem formulaFam_nonempty (opn cls content : PyStr) :
    ∀ f ∈ formulaFam opn cls content, f.formula ≠ [] := by
  intro f hf
  obtain ⟨p, -, hp⟩ := List.mem_filterMap.mp hf
  exact mkFormula_nonempty hp

/-- C6: no Formula record is ever created from an empty or
whitespace-only capture; `"$$E=mc^2$$"` yields exactly the one
mathematical formula `E=mc^2` (the overlapping inline pattern adds
nothing), and `"$$ $$"` yields none. -/
theorem C6_formulas :
    (∀ content : PyStr, ∀ f ∈ extract_formulas content, f.formula ≠ [])
  ∧ extract_formulas "$$E=mc^2$$".data
      = [{ formula := "E=mc^2".data,
           description := "Mathematical expression: E=mc^2".data,
           type := "mathematical".data, line_number := 1 }]
  ∧ extract_formulas "$$ $$".data = [] := by
  refine ⟨?_, by decide, by decide⟩
  intro content f hf
  rcases List.mem_append.mp hf with h | h
  · rcases List.mem_append.mp h with h2 | h2
    · exact formulaFam_nonempty _ _ _ f h2
    · exact formulaFam_nonempty _ _ _ f h2
  · exact formulaFam_nonempty _ _ _ f h

/-- Witness for C6 at the display-math example. -/
theorem C6_formulas_witness :
    ({ formula := "E=mc^2".data,
       description := "Mathematical expression: E=mc^2".data,
       type := "mathematical".data, line_number := 1 } : Formula).formula
      ≠ [] :=
  C6_formulas.1 "$$E=mc^2$$".data _ (by decide)

/-! ### Claim C10 -/

/-- C10: the formula list is grouped by pattern family — all display-math
records, then all inline-math records, then all equation-environment
records — each family internally in nondecreasing line order; on
"$a$\n$$b$$" the display match of line 2 precedes the inline match of
line 1, showing the grouping overrides text position. -/
theorem C10_formula_grouping :
    (∀ content : PyStr,
        extract_formulas content
          = formulaFam "$$".data "$$".data content
            ++ formulaFam "$".data "$".data content
            ++ formulaFam "\\begin{equation}".data "\\end{equation}".data content)
  ∧ (∀ content : PyStr,
      List.Pairwise (fun f g => f.line_number ≤ g.line_number)
        (formulaFam "$$".data "$$".data content))
  ∧ (∀ content : PyStr,
      List.Pairwise (fun f g => f.line_number ≤ g.line_number)
        (formulaFam "$".data "$".data content))
  ∧ (∀ content : PyStr,
      List.Pairwise (fun f g => f.line_number ≤ g.line_number)
        (formulaFam "\\begin{equation}".data "\\end{equation}".data content))
  ∧ (extract_formulas "$a$\n$$b$$".data).map Formula.line_number = [2, 1] :=
  ⟨fun _ => rfl, fun c => formulaFam_pairwise _ _ c,
    fun c => formulaFam_pairwise _ _ c, fun c => formulaFam_pairwise _ _ c,
    by decide⟩

/-! ### Claim C1 -/

/-- C1 counterexample: on "# A\n# B\ntext" the heading "A" accumulates no
content, so `order_index` 0 is consumed without a section being emitted;
the single emitted section carries `order_index` 1, which is not the
contiguous zero-based sequence over the emitted sections. -/
theorem C1_counterexample :
    process_sections "# A\n# B\ntext".data
      = [{ title := "B".data, content := "text".data, order_index := 1,
           estimated_minutes := 1 }]
    ∧ (process_sections "# A\n# B\ntext".data).map Section.order_index
        ≠ List.range (process_sections "# A\n# B\ntext".data).length := by
  constructor <;> decide

/-- C1 amended: `order_index` values are strictly increasing in document
order but may skip values; when every heading line is followed by
non-empty content (block inputs), exactly N sections are emitted with
`order_index` values `0..N-1` in document order. -/
theorem C1_amended :
    (∀ md : PyStr,
        List.Pairwise (fun a b => a.order_index < b.order_index)
          (process_sections md))
  ∧ (∀ bs : List (PyStr × PyStr), (∀ p ∈ bs, blockOk p) →
      (process_sections (mkBlockInput bs)).map Section.order_index
        = List.range bs.length) := by
  constructor
  · intro md
    rw [process_sections_eq]
    split
    · simp
    · exact psLoop_pairwise _ none [] 0 (by intro t i h'; cases h')
  · intro bs hbs
    cases bs with
    | nil => decide
    | cons p ps =>
      obtain ⟨-, -, hh, hs⟩ := hbs p (List.mem_cons_self _ _)
      have hps := fun q hq => hbs q (List.mem_cons_of_mem _ hq)
      have hhd : psIsHeader ('#' :: p.1) = true := by
        simp [psIsHeader, pyStartsWith, List.isPrefixOf]
      have hstep : psLoop (blockLines (p :: ps) ++ [[]]) none [] 0
          = psLoop (blockLines ps ++ [[]])
              (some (psTitle ('#' :: p.1), 0)) [p.2] 1 := by
        show psLoop (('#' :: p.1) :: p.2 :: (blockLines ps ++ [[]])) none [] 0 = _
        rw [show psLoop (('#' :: p.1) :: p.2 :: (blockLines ps ++ [[]])) none [] 0
            = psFlush none []
              ++ psLoop (p.2 :: (blockLines ps ++ [[]]))
                  (some (psTitle ('#' :: p.1), 0)) [] 1 from by
          simp [psLoop, hhd]]
        rw [show psLoop (p.2 :: (blockLines ps ++ [[]]))
              (some (psTitle ('#' :: p.1), 0)) [] 1
            = psLoop (blockLines ps ++ [[]])
                (some (psTitle ('#' :: p.1), 0)) [p.2] 1 from by
          simp [psLoop, hh, hs]]
        rfl
      have hmap := psLoop_blocks ps hps (psTitle ('#' :: p.1)) 0 p.2
      rw [show (0 : Nat) + 1 = 1 from rfl] at hmap
      have hne : psLoop (pyLines (mkBlockInput (p :: ps))) none [] 0 ≠ [] := by
        rw [pyLines_mkBlockInput _ hbs, hstep]
        intro hnil
        rw [hnil] at hmap
        rw [List.range'_succ] at hmap
        simp at hmap
      rw [process_sections_eq, if_neg (fun hand => hne hand.1)]
      rw [pyLines_mkBlockInput _ hbs, hstep, hmap]
      rw [List.range_eq_range']
      simp [List.length_cons]

/-- Witness for C1 at a two-block input. -/
theorem C1_amended_witness :
    (process_sections
        (mkBlockInput [("T1".data, "hello".data), ("T2".data, "world".data)])).map
        Section.order_index
      = List.range 2 :=
  C1_amended.2 [("T1".data, "hello".data), ("T2".data, "world".data)] (by decide)

/-! ### Claim C2 -/

/-- C2 counterexample: `process_sections` on "hello\n# A\nworld" drops the
non-empty leading text "hello" — the only emitted content is "world", which
does not contain it. -/
theorem C2_counterexample :
    process_sections "hello\n# A\nworld".data
      = [{ title := "A".data, content := "world".data, order_index := 0,
           estimated_minutes := 1 }]
    ∧ ¬ ("hello".data <:+: "world".data) := by
  constructor <;> decide

/-- C2 amended: the class-based `_create_sections` does attach non-empty
leading text to an implicit "Introduction" section (it becomes the first
emitted section, with the leading lines as its content); the function-based
`process_sections` gives no such guarantee — it can drop non-empty leading
text before the first heading, as on "hello\n# A\nworld". -/
theorem C2_amended (md : PyStr) (pre : List PyStr) (hl : PyStr)
    (rest : List PyStr) (hsplit : pyLines md = pre ++ hl :: rest)
    (hpre : ∀ l ∈ pre, csIsHeader (pyStrip l) = false)
    (hhl : csIsHeader (pyStrip hl) = true)
    (hne : pyStrip ((pre.map (fun l => l ++ ['\n'])).flatten) ≠ []) :
    (_create_sections md).head?
      = some { title := "Introduction".data,
               content := (pre.map (fun l => l ++ ['\n'])).flatten,
               order_index := 0,
               estimated_minutes :=
                 _estimate_reading_time
                   ((pre.map (fun l => l ++ ['\n'])).flatten) } := by
  unfold _create_sections
  rw [hsplit, csLoop_no_header_prefix pre hpre]
  rw [csLoop_flush_at_header hl rest _ 0 hhl (by simpa using hne)]
  simp

/-- Witness for C2 at "hello\n# A\nworld". -/
theorem C2_amended_witness :
    (_create_sections "hello\n# A\nworld".data).head?
      = some { title := "Introduction".data, content := "hello\n".data,
               order_index := 0, estimated_minutes := 1 } := by
  rw [C2_amended "hello\n# A\nworld".data ["hello".data] "# A".data
    ["world".data] (by decide) (by decide) (by decide) (by decide)]
  decide

/-! ### Claim C3 -/

/-- C3 counterexample: on "hello\n# A\nworld" the concatenation of all
emitted contents is "world"; the non-whitespace leading text "hello" is
missing from it, so the round-trip fails. -/
theorem C3_counterexample :
    (process_sections "hello\n# A\nworld".data).map Section.content
      = ["world".data]
    ∧ ¬ ("hello".data <:+: "world".data ∨ "A".data <:+: "world".data) := by
  constructor <;> decide

/-- C3 amended: concatenating the emitted contents reconstructs, modulo
whitespace (word-for-word), only the non-heading lines after the first
heading line — leading text and the heading lines themselves are excluded —
except that when the heading loop emits no section the single fallback
"Content" section reconstructs the words of the entire input. -/
theorem C3_amended (md : PyStr) :
    sectionWords (process_sections md)
      = if psLoop (pyLines md) none [] 0 = [] then pySplitWs md
        else afterFirstHeaderWords (pyLines md) := by
  rw [process_sections_eq]
  by_cases h : psLoop (pyLines md) none [] 0 = []
  · rw [if_pos h]
    by_cases h2 : pyStrip md = []
    · rw [if_neg (by simp [h2]), h]
      simp [sectionWords, pySplitWs_eq_nil_of_strip md h2]
    · rw [if_pos ⟨h, h2⟩]
      simp [sectionWords, pySplitWs_pyStrip]
  · rw [if_neg (fun hand => h hand.1), if_neg h]
    exact sectionWords_psLoop_none (pyLines md) [] 0

/-! ### Claim C7 -/

set_option maxRecDepth 8000 in
/-- C7 counterexample: with no usable title attribute and main_text
"hello\n# Head", a heading line is present within the first 10 lines, yet
the code returns the earlier short non-heading line "hello", not the
heading's stripped text "Head" — the scan takes the first line matching
either test, with no priority for headings.  Moreover the class-path
`_extract_title_from_content` can return more than 200 characters. -/
theorem C7_counterexample :
    extract_title
        { title := none, main_text := some "hello\n# Head".data,
          pages := none, _pages := none, pictures := none, tables := none,
          export_to_markdown := [] } = "hello".data
    ∧ "hello".data ≠ psTitle "# Head".data
    ∧ 200 < (_extract_title_from_content
        ("# ".data ++ List.replicate 201 'a')).length := by
  refine ⟨by decide, by decide, by decide⟩

/-- C7 amended: `extract_title` returns at most 200 characters; an
explicit non-empty `title` attribute wins; otherwise, scanning the first
10 lines of `main_text` in order, the FIRST line that is either a heading
(its `#`-stripped text) or non-empty with stripped length < 100 (its
stripped text) provides the title — headings have no priority over earlier
short lines; otherwise "Untitled Document".  The class-path
`_extract_title_from_content` likewise takes the first matching line of
the whole text, with no 10-line window and no 200-character cap. -/
theorem C7_amended :
    (∀ doc : Doc, (extract_title doc).length ≤ 200)
  ∧ (∀ doc : Doc, ∀ t : PyStr, doc.title = some t → t ≠ [] →
      extract_title doc = t.take 200)
  ∧ (∀ (doc : Doc) (mt : PyStr) (pre : List PyStr) (l : PyStr)
        (rest : List PyStr),
      (doc.title = none ∨ doc.title = some []) →
      doc.main_text = some mt →
      (pyLines mt).take 10 = pre ++ l :: rest →
      (∀ p ∈ pre, titleLinePick p = none) →
      ∀ ti : PyStr, titleLinePick l = some ti →
      extract_title doc = ti.take 200)
  ∧ (∀ doc : Doc, (doc.title = none ∨ doc.title = some []) →
      doc.main_text = none → extract_title doc = "Untitled Document".data)
  ∧ (∀ (md : PyStr) (pre : List PyStr) (l : PyStr) (rest : List PyStr),
      pyLines md = pre ++ l :: rest →
      (∀ p ∈ pre, ctTitlePick p = none) →
      ∀ ti : PyStr, ctTitlePick l = some ti →
      _extract_title_from_content md = ti) := by
  refine ⟨?_, ?_, ?_, ?_, ?_⟩
  · intro doc
    simp only [extract_title, List.length_take]
    omega
  · intro doc t ht hne
    simp [extract_title, ht, hne]
  · intro doc mt pre l rest htitle hmt hsplit hpre ti hti
    have hmain : extract_title_from_main doc = ti := by
      simp only [extract_title_from_main, hmt, hsplit,
        findSome?_first titleLinePick pre l rest hpre ti hti, Option.getD_some]
    rcases htitle with h | h
    · simp only [extract_title, h]
      rw [hmain]
    · simp only [extract_title, h, ne_eq, not_true_eq_false, if_false]
      rw [hmain]
  · intro doc htitle hmt
    have hmain : extract_title_from_main doc = "Untitled Document".data := by
      simp only [extract_title_from_main, hmt]
    rcases htitle with h | h
    · simp only [extract_title, h]
      rw [hmain]
      decide
    · simp only [extract_title, h, ne_eq, not_true_eq_false, if_false]
      rw [hmain]
      decide
  · intro md pre l rest hsplit hpre ti hti
    simp only [_extract_title_from_content, hsplit,
      findSome?_first ctTitlePick pre l rest hpre ti hti, Option.getD_some]

/-- Witness for C7 with an explicit non-empty title attribute. -/
theorem C7_amended_witness :
    extract_title
        { title := some "T".data, main_text := none, pages := none,
          _pages := none, pictures := none, tables := none,
          export_to_markdown := [] }
      = ("T".data).take 200 :=
  C7_amended.2.1
    { title := some "T".data, main_text := none, pages := none,
      _pages := none, pictures := none, tables := none,
      export_to_markdown := [] }
    "T".data rfl (by decide)

end DoclingProc
